import Mathlib

/-
Verification of the sto Adapter component (src/sto-core/Adapter.hh).

The Adapter is an adaptive column-access profiler: per-thread counter banks,
a global atomic counter bank, an aggregation step (Commit), and a split-point
advisor (ComputeSplitIndex / RecomputeSplit / CurrentSplit), all gated by a
process-wide enablement flag (AdapterConfig::Enabled).

Modelling notes.
* Machine counters (size_t) are modelled as Nat.  The workloads considered
  never approach 2^64, so no wrap-around modelling is needed.
* The C++ template parameter IndexType::COLCOUNT becomes an explicit
  parameter N; column indices are Nat with the precondition index < N
  (the source asserts index < COLCOUNT and aborts on violation).
* thread_counters is an array of MAX_THREADS banks; it is modelled as a
  total function from Nat, with thread ids assumed in range per the external
  thread-handle service contract (spec section 6).
* double arithmetic in ComputeSplitIndex is modelled by exact rationals.
  Division by a zero total, which yields NaN in C++, yields 0 in Q; in both
  semantics every comparison made by the two scan passes on such degenerate
  data is false (NaN comparisons are always false; in the Q model the
  compared quantities make the conditions false as well), so the selected
  split index agrees.
* Concurrency is out of scope here: each operation is modelled as an atomic
  state transformation, matching the single-actor / quiescent scenarios the
  claims describe.
-/

namespace StoAdapter

/-- Model of Adapter::CounterSet: a pair of per-column counter arrays
(read_counters, write_counters), indexed by column number. -/
structure CounterSet where
  read_counters : ℕ → ℕ
  write_counters : ℕ → ℕ

/-- The all-zero counter set, the result of CounterSet::Reset and the
initial value provided by INITIALIZE_ADAPTER (zero initialization). -/
def CounterSet.zero : CounterSet :=
  { read_counters := fun _ => 0, write_counters := fun _ => 0 }

/-- Model of the static state of one Adapter instantiation: the enablement
flag AdapterConfig::Enabled, the per-thread banks thread_counters, the
global bank global_counters, and the published split current_split (a raw
stored value; 0 is the sentinel meaning no split yet). -/
structure AdapterState where
  enabled : Bool
  thread_counters : ℕ → CounterSet
  global_counters : CounterSet
  current_split : ℕ

/-- Adapter::GetRead: read one global read counter; returns 0 when the
feature is disabled. -/
def getRead (s : AdapterState) (index : ℕ) : ℕ :=
  if s.enabled then s.global_counters.read_counters index else 0

/-- Adapter::GetWrite: read one global write counter; returns 0 when the
feature is disabled. -/
def getWrite (s : AdapterState) (index : ℕ) : ℕ :=
  if s.enabled then s.global_counters.write_counters index else 0

/-- Adapter::Get: the pair (GetRead, GetWrite). -/
def get (s : AdapterState) (index : ℕ) : ℕ × ℕ :=
  (getRead s index, getWrite s index)

/-- Adapter::TGetRead (explicit-thread overload): read one thread-local
read counter; returns 0 when the feature is disabled. -/
def tGetRead (s : AdapterState) (threadid index : ℕ) : ℕ :=
  if s.enabled then (s.thread_counters threadid).read_counters index else 0

/-- Adapter::TGetWrite (explicit-thread overload). -/
def tGetWrite (s : AdapterState) (threadid index : ℕ) : ℕ :=
  if s.enabled then (s.thread_counters threadid).write_counters index else 0

/-- Adapter::TGet: the pair (TGetRead, TGetWrite). -/
def tGet (s : AdapterState) (threadid index : ℕ) : ℕ × ℕ :=
  (tGetRead s threadid index, tGetWrite s threadid index)

/-- Adapter::CurrentSplit: the published split, with the stored sentinel 0
reinterpreted as COLCOUNT. -/
def currentSplit (N : ℕ) (s : AdapterState) : ℕ :=
  if s.current_split = 0 then N else s.current_split

/-- Adapter::CountRead(index, count): add count to the calling thread
(threadid) local read counter for index; no-op when disabled.  The source
asserts index < COLCOUNT before the update. -/
def countRead (threadid index count : ℕ) (s : AdapterState) : AdapterState :=
  if s.enabled then
    { s with
      thread_counters := fun t =>
        if t = threadid then
          { read_counters := fun i =>
              if i = index then (s.thread_counters t).read_counters i + count
              else (s.thread_counters t).read_counters i
            write_counters := (s.thread_counters t).write_counters }
        else s.thread_counters t }
  else s

/-- Adapter::CountWrite(index, count): add count to the calling thread
local write counter for index; no-op when disabled. -/
def countWrite (threadid index count : ℕ) (s : AdapterState) : AdapterState :=
  if s.enabled then
    { s with
      thread_counters := fun t =>
        if t = threadid then
          { read_counters := (s.thread_counters t).read_counters
            write_counters := fun i =>
              if i = index then (s.thread_counters t).write_counters i + count
              else (s.thread_counters t).write_counters i }
        else s.thread_counters t }
  else s

/-- Adapter::Commit(threadid): for every column i < COLCOUNT, fetch-add the
thread bank read and write counters into the global bank; no-op when
disabled.  The thread bank itself is not modified. -/
def commit (N threadid : ℕ) (s : AdapterState) : AdapterState :=
  if s.enabled then
    { s with
      global_counters :=
        { read_counters := fun i =>
            if i < N then
              s.global_counters.read_counters i
                + (s.thread_counters threadid).read_counters i
            else s.global_counters.read_counters i
          write_counters := fun i =>
            if i < N then
              s.global_counters.write_counters i
                + (s.thread_counters threadid).write_counters i
            else s.global_counters.write_counters i } }
  else s

/-- Adapter::ResetGlobal: zero the global bank; no-op when disabled. -/
def resetGlobal (s : AdapterState) : AdapterState :=
  if s.enabled then { s with global_counters := CounterSet.zero } else s

/-- Adapter::ResetThread: zero the calling thread bank; no-op when
disabled. -/
def resetThread (threadid : ℕ) (s : AdapterState) : AdapterState :=
  if s.enabled then
    { s with
      thread_counters := fun t =>
        if t = threadid then CounterSet.zero else s.thread_counters t }
  else s

/-- Prefix sums as built by ComputeSplitIndex: psum f 0 = f 0 and
psum f i = psum f (i-1) + f i. -/
def psum (f : ℕ → ℕ) : ℕ → ℕ
  | 0 => f 0
  | k + 1 => psum f k + f (k + 1)

/-- Running totals as accumulated by ComputeSplitIndex over the first N
frequencies. -/
def total (f : ℕ → ℕ) : ℕ → ℕ
  | 0 => 0
  | n + 1 => total f n + f n

/-- Exact-rational model of the double quotient num * 1.0 / den used by
ComputeSplitIndex.  A zero denominator yields NaN in C++ and 0 here; see
the header comment for why the two semantics select the same split. -/
def frac (num den : ℕ) : ℚ := (num : ℚ) / (den : ℚ)

/-- The fraction pair current_data computed for a candidate split s in
ComputeSplitIndex: (read_psum[s-1] / read_total, write_psum[s-1] / write_total). -/
def splitData (N : ℕ) (rf wf : ℕ → ℕ) (s : ℕ) : ℚ × ℚ :=
  (frac (psum rf (s - 1)) (total rf N), frac (psum wf (s - 1)) (total wf N))

/-- The left-group write fraction write_psum[s-1] / write_total used by the
balance pass of ComputeSplitIndex. -/
def wFrac (N : ℕ) (wf : ℕ → ℕ) (s : ℕ) : ℚ := frac (psum wf (s - 1)) (total wf N)

/-- First (skew) pass of ComputeSplitIndex: iterate current_split from the
first argument down to 1, carrying the accumulator (best_split, best_data);
replace it with (current_split, current_data) exactly when
current_diff > best_diff * 1.05, where each diff is the absolute difference
of the write and read members of the corresponding data pair. -/
def pass1loop (f : ℕ → ℚ × ℚ) : ℕ → ℕ × (ℚ × ℚ) → ℕ × (ℚ × ℚ)
  | 0, acc => acc
  | cs + 1, acc =>
      pass1loop f cs
        (if |(f (cs + 1)).2 - (f (cs + 1)).1| > |acc.2.2 - acc.2.1| * (21 / 20) then
          (cs + 1, f (cs + 1))
        else acc)

/-- Second (write-balance) pass of ComputeSplitIndex: iterate current_split
from the first argument down to 1; replace best_split with current_split
exactly when |g current_split - 0.5| < |g best_split - 0.5| * 0.95, where g
is the left-group write fraction.  Note the source recomputes best_diff
from the current best_split on every iteration. -/
def pass2loop (g : ℕ → ℚ) : ℕ → ℕ → ℕ
  | 0, best => best
  | cs + 1, best =>
      pass2loop g cs
        (if |g (cs + 1) - 1 / 2| < |g best - 1 / 2| * (19 / 20) then cs + 1 else best)

/-- Adapter::ComputeSplitIndex as a function of the snapshot frequencies rf
and wf it reads from the global bank: initialize best_split = COLCOUNT with
its data pair, run the skew pass over COLCOUNT-1 .. 1, and if best_split is
still COLCOUNT run the write-balance pass over the same range. -/
def computeSplitIndexFrom (N : ℕ) (rf wf : ℕ → ℕ) : ℕ :=
  let p1 := pass1loop (splitData N rf wf) (N - 1) (N, splitData N rf wf N)
  if p1.1 = N then pass2loop (wFrac N wf) (N - 1) p1.1 else p1.1

/-- Adapter::ComputeSplitIndex: the snapshot is read through GetRead and
GetWrite (hence all zero when the feature is disabled). -/
def computeSplitIndex (N : ℕ) (s : AdapterState) : ℕ :=
  computeSplitIndexFrom N (fun i => getRead s i) (fun i => getWrite s i)

/-- Adapter::RecomputeSplit: compute the new split, call ResetGlobal, set
changed = (new split differs from the raw stored current_split), publish the
new split, and return changed together with the new state. -/
def recomputeSplit (N : ℕ) (s : AdapterState) : Bool × AdapterState :=
  let newsplit := computeSplitIndex N s
  let s1 := resetGlobal s
  (decide (newsplit ≠ s.current_split), { s1 with current_split := newsplit })

/-- The state set up by INITIALIZE_ADAPTER: current_split is
value-initialized to 0 and both counter banks are zero; the enablement flag
is whatever process configuration chose. -/
def initState (enabled : Bool) : AdapterState :=
  { enabled := enabled
    thread_counters := fun _ => CounterSet.zero
    global_counters := CounterSet.zero
    current_split := 0 }

/-- One mutating call of the Adapter public interface.  Column indices are
Fin N, reflecting the assert(index < COLCOUNT) precondition in the source. -/
inductive AdapterOp (N : ℕ) where
  | countRead (threadid : ℕ) (index : Fin N) (count : ℕ)
  | countWrite (threadid : ℕ) (index : Fin N) (count : ℕ)
  | commit (threadid : ℕ)
  | recomputeSplit
  | resetGlobal
  | resetThread (threadid : ℕ)

/-- Execute one mutating call on the state (dropping the Bool returned by
RecomputeSplit). -/
def exec (N : ℕ) : AdapterOp N → AdapterState → AdapterState
  | .countRead t i c, s => countRead t i c s
  | .countWrite t i c, s => countWrite t i c s
  | .commit t, s => commit N t s
  | .recomputeSplit, s => (recomputeSplit N s).2
  | .resetGlobal, s => resetGlobal s
  | .resetThread t, s => resetThread t s

/-- Execute a sequence of mutating calls, leftmost first. -/
def execList (N : ℕ) (ops : List (AdapterOp N)) (s : AdapterState) : AdapterState :=
  ops.foldl (fun st op => exec N op st) s

/-- Fold Commit over a list of thread ids, leftmost first. -/
def commitList (N : ℕ) (ts : List ℕ) (s : AdapterState) : AdapterState :=
  ts.foldl (fun st t => commit N t st) s

/-- The skew measure of the spec wording: diff(s) = |write_fraction(s) -
read_fraction(s)| for a candidate data function f. -/
def skewDiff (f : ℕ → ℚ × ℚ) (s : ℕ) : ℚ := |(f s).2 - (f s).1|

/-- One replacement decision of the skew pass, as the spec words it: the
best candidate is replaced by cand exactly when d cand > d best * 1.05,
with d best recomputed from the best index itself. -/
def pass1update (d : ℕ → ℚ) (cand best : ℕ) : ℕ :=
  if d cand > d best * (21 / 20) then cand else best

/-- The skew pass as the spec words it: scan candidates downward, updating
the best index through pass1update; the diff of the best candidate is a
function of the index alone. -/
def pass1spec (d : ℕ → ℚ) : ℕ → ℕ → ℕ
  | 0, best => best
  | cs + 1, best => pass1spec d cs (pass1update d (cs + 1) best)

/-- Scenario state for claim C1: feature enabled, global reads
[10,10,10,10], global writes [0,0,40,40], COLCOUNT = 4. -/
def stateC1 : AdapterState :=
  { enabled := true
    thread_counters := fun _ => CounterSet.zero
    global_counters :=
      { read_counters := fun i => if i < 4 then 10 else 0
        write_counters := fun i => if i = 2 then 40 else if i = 3 then 40 else 0 }
    current_split := 0 }

/-- Scenario state for claim C2: feature enabled, global reads and writes
both [5,5,5,5], COLCOUNT = 4. -/
def stateC2 : AdapterState :=
  { enabled := true
    thread_counters := fun _ => CounterSet.zero
    global_counters :=
      { read_counters := fun i => if i < 4 then 5 else 0
        write_counters := fun i => if i < 4 then 5 else 0 }
    current_split := 0 }

/-- Scenario state for the C5 and C6 witnesses: feature enabled, zero
global bank, two columns, thread 0 holding 3 reads and 5 writes on column
0, thread 1 holding 4 reads and 6 writes on column 0. -/
def stateC5 : AdapterState :=
  { enabled := true
    thread_counters := fun t =>
      if t = 0 then
        { read_counters := fun i => if i = 0 then 3 else 0
          write_counters := fun i => if i = 0 then 5 else 0 }
      else if t = 1 then
        { read_counters := fun i => if i = 0 then 4 else 0
          write_counters := fun i => if i = 0 then 6 else 0 }
      else CounterSet.zero
    global_counters := CounterSet.zero
    current_split := 0 }

/-! Helper lemmas shared by several developments below. -/

/-- Evaluation helper: the split computed for the C1 scenario bank is 2. -/
lemma csi_stateC1 : computeSplitIndex 4 stateC1 = 2 := by
  norm_num [computeSplitIndex, computeSplitIndexFrom, pass1loop, pass2loop, splitData,
    wFrac, psum, total, frac, getRead, getWrite, stateC1, abs_of_nonneg, abs_of_nonpos]

/-- Evaluation helper: the split computed for the C2 scenario bank is 2. -/
lemma csi_stateC2 : computeSplitIndex 4 stateC2 = 2 := by
  norm_num [computeSplitIndex, computeSplitIndexFrom, pass1loop, pass2loop, splitData,
    wFrac, psum, total, frac, getRead, getWrite, stateC2, abs_of_nonneg, abs_of_nonpos]

/-- Refinement helper: the skew pass of the source, which carries the best
candidate data pair alongside the best index, agrees with the spec-worded
scan that recomputes the diff of the best candidate from its index, provided
the carried pair is the data of the carried index. -/
lemma pass1loop_eq_pass1spec (f : ℕ → ℚ × ℚ) :
    ∀ n b : ℕ, (pass1loop f n (b, f b)).1 = pass1spec (skewDiff f) n b := by
  intro n
  induction n with
  | zero => intro b; rfl
  | succ n ih =>
      intro b
      simp only [pass1loop, pass1spec, pass1update, skewDiff]
      by_cases h : |(f (n + 1)).2 - (f (n + 1)).1| > |(f b).2 - (f b).1| * (21 / 20)
      · rw [if_pos h, if_pos h]
        exact ih (n + 1)
      · rw [if_neg h, if_neg h]
        exact ih b

/-- Loop helper: the skew pass keeps its accumulator whenever no candidate
passes the hysteresis test against it. -/
lemma pass1loop_keep (f : ℕ → ℚ × ℚ) (acc : ℕ × (ℚ × ℚ))
    (h : ∀ cs : ℕ, ¬ (|(f cs).2 - (f cs).1| > |acc.2.2 - acc.2.1| * (21 / 20))) :
    ∀ n, pass1loop f n acc = acc := by
  intro n
  induction n with
  | zero => rfl
  | succ n ih => rw [pass1loop, if_neg (h (n + 1))]; exact ih

/-- Loop helper: the balance pass keeps its best candidate whenever no
candidate passes the hysteresis test against it. -/
lemma pass2loop_keep (g : ℕ → ℚ) (best : ℕ)
    (h : ∀ cs : ℕ, ¬ (|g cs - 1 / 2| < |g best - 1 / 2| * (19 / 20))) :
    ∀ n, pass2loop g n best = best := by
  intro n
  induction n with
  | zero => rfl
  | succ n ih => rw [pass2loop, if_neg (h (n + 1))]; exact ih

/-- Prefix sums of the all-zero frequency vector vanish. -/
lemma psum_zero : ∀ k, psum (fun _ => 0) k = 0 := by
  intro k
  induction k with
  | zero => rfl
  | succ k ih => rw [psum, ih]

/-- Totals of the all-zero frequency vector vanish. -/
lemma total_zero : ∀ n, total (fun _ => 0) n = 0 := by
  intro n
  induction n with
  | zero => rfl
  | succ n ih => rw [total, ih]

/-- On an all-zero snapshot, ComputeSplitIndex returns COLCOUNT: the skew
pass sees diff 0 everywhere and keeps best = COLCOUNT, and the balance pass
sees distance one half everywhere and keeps best = COLCOUNT as well.  (In
the C++ original the zero totals make every comparison a false NaN
comparison, with the same outcome.) -/
lemma computeSplitIndexFrom_zero (N : ℕ) :
    computeSplitIndexFrom N (fun _ => 0) (fun _ => 0) = N := by
  have hd : ∀ s, splitData N (fun _ => 0) (fun _ => 0) s = (0, 0) := by
    intro s
    simp [splitData, frac, psum_zero, total_zero]
  have hw : ∀ s, wFrac N (fun _ => 0) s = 0 := by
    intro s
    simp [wFrac, frac, psum_zero, total_zero]
  unfold computeSplitIndexFrom
  rw [hd N, pass1loop_keep _ _ ?keep1]
  case keep1 =>
    intro cs
    rw [hd cs]
    norm_num
  simp only [if_pos rfl]
  rw [pass2loop_keep _ _ ?keep2]
  case keep2 =>
    intro cs
    rw [hw cs, hw N]
    norm_num [abs_of_nonpos]
  simp

/-- A state whose global bank is identically zero yields split COLCOUNT. -/
lemma computeSplitIndex_zero_global (N : ℕ) (s : AdapterState)
    (h : s.global_counters = CounterSet.zero) : computeSplitIndex N s = N := by
  have hr : (fun i => getRead s i) = (fun _ => 0) := by
    funext i
    simp [getRead, h, CounterSet.zero]
  have hw : (fun i => getWrite s i) = (fun _ => 0) := by
    funext i
    simp [getWrite, h, CounterSet.zero]
  rw [computeSplitIndex, hr, hw, computeSplitIndexFrom_zero]

/-- FC1: with COLCOUNT = 4, reads [10,10,10,10] and writes [0,0,40,40] in the
global bank and the feature enabled, ComputeSplitIndex returns 2: the skew
pass selects candidate s = 2 with left read fraction 0.5 and write fraction
0, and its diff 0.5 dominates every other candidate. -/
theorem computeSplitIndex_skew_scenario : computeSplitIndex 4 stateC1 = 2 :=
  csi_stateC1

/-- FC2: with COLCOUNT = 4, reads [5,5,5,5] and writes [5,5,5,5] in the
global bank and the feature enabled, ComputeSplitIndex returns 2: every skew
diff is 0 so the skew pass keeps best = 4, and the write-balance fallback
then selects s = 2, whose left write fraction is exactly one half. -/
theorem computeSplitIndex_balance_scenario : computeSplitIndex 4 stateC2 = 2 :=
  csi_stateC2

/-- FC3: the skew pass of ComputeSplitIndex scans candidates from
COLCOUNT - 1 down to 1 with the best candidate initialized to COLCOUNT, and
replaces the best by a candidate exactly when the candidate diff exceeds
the best diff times 1.05, the best diff being determined by the best index
(first conjunct, a refinement of the carried-data loop of the source to the
spec wording); moreover a candidate whose diff equals the best diff never
replaces it, so among equal-diff candidates the larger, earlier-scanned
index wins (second conjunct). -/
theorem pass1_spec_refinement (N : ℕ) (rf wf : ℕ → ℕ) :
    computeSplitIndexFrom N rf wf =
      (let best := pass1spec (skewDiff (splitData N rf wf)) (N - 1) N
       if best = N then pass2loop (wFrac N wf) (N - 1) best else best)
    ∧ ∀ cand best : ℕ,
        skewDiff (splitData N rf wf) cand = skewDiff (splitData N rf wf) best →
        pass1update (skewDiff (splitData N rf wf)) cand best = best := by
  constructor
  · show (let p1 := pass1loop (splitData N rf wf) (N - 1) (N, splitData N rf wf N)
          if p1.1 = N then pass2loop (wFrac N wf) (N - 1) p1.1 else p1.1) = _
    simp only
    rw [pass1loop_eq_pass1spec]
  · intro cand best h
    have h0 : (0 : ℚ) ≤ skewDiff (splitData N rf wf) best := abs_nonneg _
    rw [pass1update, h, if_neg (not_lt.mpr (by nlinarith))]

/-- Witness for FC3: at the all-zero four-column snapshot, candidates 1 and
2 have equal diff and the tie keeps the previous best 2. -/
theorem pass1_spec_refinement_witness :
    skewDiff (splitData 4 (fun _ => 0) (fun _ => 0)) 1
      = skewDiff (splitData 4 (fun _ => 0) (fun _ => 0)) 2
    ∧ pass1update (skewDiff (splitData 4 (fun _ => 0) (fun _ => 0))) 1 2 = 2 :=
  ⟨by norm_num [skewDiff, splitData, frac, psum, total],
   (pass1_spec_refinement 4 (fun _ => 0) (fun _ => 0)).2 1 2
     (by norm_num [skewDiff, splitData, frac, psum, total])⟩

/-- Unfolding helper: the changed flag of RecomputeSplit compares the new
split with the raw stored current_split. -/
lemma recomputeSplit_fst (N : ℕ) (s : AdapterState) :
    (recomputeSplit N s).1 = decide (computeSplitIndex N s ≠ s.current_split) := rfl

/-- Unfolding helper: RecomputeSplit publishes the computed split. -/
lemma recomputeSplit_snd_split (N : ℕ) (s : AdapterState) :
    (recomputeSplit N s).2.current_split = computeSplitIndex N s := rfl

/-- FC4 (amended): with the feature enabled, RecomputeSplit computes the
split, unconditionally zeroes the global bank, publishes the computed value,
leaves the enablement flag and the thread banks alone, and returns true
exactly when the published value differs from the prior raw stored value.
A second consecutive call therefore computes over an all-zero bank and
publishes COLCOUNT; it returns false exactly when the first call itself
computed COLCOUNT. -/
theorem recomputeSplit_amended (N : ℕ) (s : AdapterState) (he : s.enabled = true) :
    (recomputeSplit N s).2.global_counters = CounterSet.zero
    ∧ (recomputeSplit N s).2.current_split = computeSplitIndex N s
    ∧ (recomputeSplit N s).2.enabled = s.enabled
    ∧ (recomputeSplit N s).2.thread_counters = s.thread_counters
    ∧ ((recomputeSplit N s).1 = true ↔ computeSplitIndex N s ≠ s.current_split)
    ∧ computeSplitIndex N (recomputeSplit N s).2 = N
    ∧ ((recomputeSplit N (recomputeSplit N s).2).1 = false ↔ computeSplitIndex N s = N)
    ∧ (recomputeSplit N (recomputeSplit N s).2).2.current_split = N := by
  have hg : (recomputeSplit N s).2.global_counters = CounterSet.zero := by
    simp [recomputeSplit, resetGlobal, he]
  have hsplit : (recomputeSplit N s).2.current_split = computeSplitIndex N s := by
    simp [recomputeSplit]
  have hcsi2 : computeSplitIndex N (recomputeSplit N s).2 = N :=
    computeSplitIndex_zero_global N _ hg
  refine ⟨hg, hsplit, ?_, ?_, ?_, hcsi2, ?_, ?_⟩
  · simp [recomputeSplit, resetGlobal, he]
  · simp [recomputeSplit, resetGlobal, he]
  · rw [recomputeSplit_fst, decide_eq_true_eq]
  · rw [recomputeSplit_fst, hcsi2, hsplit, decide_eq_false_iff_not, not_ne_iff]
    exact eq_comm
  · rw [recomputeSplit_snd_split, hcsi2]

/-- Counterexample to FC4 as stated: starting from the C1 scenario bank,
the first RecomputeSplit publishes 2; the second consecutive call, with no
counting in between, computes 4 over the zeroed bank, returns true, and
moves the split from 2 to 4 — it does change the split and does not return
false. -/
theorem recomputeSplit_second_call_changes :
    (recomputeSplit 4 (recomputeSplit 4 stateC1).2).1 = true
    ∧ (recomputeSplit 4 (recomputeSplit 4 stateC1).2).2.current_split = 4
    ∧ (recomputeSplit 4 stateC1).2.current_split = 2 := by
  have h2 : (recomputeSplit 4 stateC1).2.current_split = 2 := by
    simp [recomputeSplit, csi_stateC1]
  have hg : (recomputeSplit 4 stateC1).2.global_counters = CounterSet.zero := by
    simp [recomputeSplit, resetGlobal, stateC1]
  have hcsi2 : computeSplitIndex 4 (recomputeSplit 4 stateC1).2 = 4 :=
    computeSplitIndex_zero_global 4 _ hg
  refine ⟨?_, ?_, h2⟩
  · rw [recomputeSplit_fst, hcsi2, h2]
    simp
  · rw [recomputeSplit_snd_split, hcsi2]

/-- Witness for FC4 (amended) at COLCOUNT = 4 and the C2 scenario state,
whose enablement flag is on. -/
theorem recomputeSplit_amended_witness :
    stateC2.enabled = true
    ∧ ((recomputeSplit 4 stateC2).2.global_counters = CounterSet.zero
       ∧ (recomputeSplit 4 stateC2).2.current_split = computeSplitIndex 4 stateC2
       ∧ (recomputeSplit 4 stateC2).2.enabled = stateC2.enabled
       ∧ (recomputeSplit 4 stateC2).2.thread_counters = stateC2.thread_counters
       ∧ ((recomputeSplit 4 stateC2).1 = true ↔
            computeSplitIndex 4 stateC2 ≠ stateC2.current_split)
       ∧ computeSplitIndex 4 (recomputeSplit 4 stateC2).2 = 4
       ∧ ((recomputeSplit 4 (recomputeSplit 4 stateC2).2).1 = false ↔
            computeSplitIndex 4 stateC2 = 4)
       ∧ (recomputeSplit 4 (recomputeSplit 4 stateC2).2).2.current_split = 4) :=
  ⟨rfl, recomputeSplit_amended 4 stateC2 rfl⟩

/-- Commit leaves the enablement flag alone. -/
lemma commit_enabled (N t : ℕ) (s : AdapterState) :
    (commit N t s).enabled = s.enabled := by
  unfold commit
  split <;> rfl

/-- Commit leaves every thread bank alone. -/
lemma commit_threads (N t : ℕ) (s : AdapterState) :
    (commit N t s).thread_counters = s.thread_counters := by
  unfold commit
  split <;> rfl

/-- Commit leaves the stored split alone. -/
lemma commit_split (N t : ℕ) (s : AdapterState) :
    (commit N t s).current_split = s.current_split := by
  unfold commit
  split <;> rfl

/-- With the feature enabled, Commit adds the committing thread read
counter into the global read slot of every column below COLCOUNT. -/
lemma commit_global_read (N t : ℕ) (s : AdapterState) (he : s.enabled = true)
    (c : ℕ) (hc : c < N) :
    (commit N t s).global_counters.read_counters c
      = s.global_counters.read_counters c + (s.thread_counters t).read_counters c := by
  simp [commit, he, hc]

/-- With the feature enabled, Commit adds the committing thread write
counter into the global write slot of every column below COLCOUNT. -/
lemma commit_global_write (N t : ℕ) (s : AdapterState) (he : s.enabled = true)
    (c : ℕ) (hc : c < N) :
    (commit N t s).global_counters.write_counters c
      = s.global_counters.write_counters c + (s.thread_counters t).write_counters c := by
  simp [commit, he, hc]

/-- Folding Commit over a list of threads keeps the enablement flag. -/
lemma commitList_enabled (N : ℕ) :
    ∀ (ts : List ℕ) (s : AdapterState), (commitList N ts s).enabled = s.enabled := by
  intro ts
  induction ts with
  | nil => intro s; rfl
  | cons t ts ih =>
      intro s
      show (commitList N ts (commit N t s)).enabled = s.enabled
      rw [ih, commit_enabled]

/-- Folding Commit over a list of threads accumulates, per column, the sum
of the thread read counters on top of the global read counter. -/
lemma commitList_read (N c : ℕ) (hc : c < N) :
    ∀ (ts : List ℕ) (s : AdapterState), s.enabled = true →
      (commitList N ts s).global_counters.read_counters c
        = s.global_counters.read_counters c
          + (ts.map (fun t => (s.thread_counters t).read_counters c)).sum := by
  intro ts
  induction ts with
  | nil => intro s he; simp [commitList]
  | cons t ts ih =>
      intro s he
      have he2 : (commit N t s).enabled = true := by rw [commit_enabled, he]
      show (commitList N ts (commit N t s)).global_counters.read_counters c = _
      rw [ih (commit N t s) he2, commit_global_read N t s he c hc, commit_threads]
      simp only [List.map_cons, List.sum_cons]
      omega

/-- Folding Commit over a list of threads accumulates, per column, the sum
of the thread write counters on top of the global write counter. -/
lemma commitList_write (N c : ℕ) (hc : c < N) :
    ∀ (ts : List ℕ) (s : AdapterState), s.enabled = true →
      (commitList N ts s).global_counters.write_counters c
        = s.global_counters.write_counters c
          + (ts.map (fun t => (s.thread_counters t).write_counters c)).sum := by
  intro ts
  induction ts with
  | nil => intro s he; simp [commitList]
  | cons t ts ih =>
      intro s he
      have he2 : (commit N t s).enabled = true := by rw [commit_enabled, he]
      show (commitList N ts (commit N t s)).global_counters.write_counters c = _
      rw [ih (commit N t s) he2, commit_global_write N t s he c hc, commit_threads]
      simp only [List.map_cons, List.sum_cons]
      omega

/-- FC5: with the feature enabled and the global bank zero, if every thread
t of a duplicate-free set holds r_t and w_t in its thread-local bank and
each calls Commit exactly once with no intervening ResetGlobal, then
afterwards GetRead c is the sum of the r_t c and GetWrite c is the sum of
the w_t c for every column c below COLCOUNT. -/
theorem commit_aggregation (N : ℕ) (s : AdapterState) (he : s.enabled = true)
    (hg : ∀ c, c < N → s.global_counters.read_counters c = 0
      ∧ s.global_counters.write_counters c = 0)
    (ts : List ℕ) (_hnd : ts.Nodup) (c : ℕ) (hc : c < N) :
    getRead (commitList N ts s) c = (ts.map (fun t => tGetRead s t c)).sum
    ∧ getWrite (commitList N ts s) c = (ts.map (fun t => tGetWrite s t c)).sum := by
  have hen : (commitList N ts s).enabled = true := by rw [commitList_enabled, he]
  have hmr : (fun t => tGetRead s t c) = (fun t => (s.thread_counters t).read_counters c) :=
    funext fun t => by simp [tGetRead, he]
  have hmw : (fun t => tGetWrite s t c) = (fun t => (s.thread_counters t).write_counters c) :=
    funext fun t => by simp [tGetWrite, he]
  constructor
  · rw [getRead, hmr]
    simp only [hen, if_true]
    rw [commitList_read N c hc ts s he, (hg c hc).1, Nat.zero_add]
  · rw [getWrite, hmw]
    simp only [hen, if_true]
    rw [commitList_write N c hc ts s he, (hg c hc).2, Nat.zero_add]

/-- Witness for FC5: two threads holding reads [3,0] and [4,0] and writes
[5,0] and [6,0] on column 0 of a two-column table, committing once each
over a zero global bank, yield GetRead 0 = 7 and GetWrite 0 = 11. -/
theorem commit_aggregation_witness :
    (stateC5.enabled = true
      ∧ (∀ c, c < 2 → stateC5.global_counters.read_counters c = 0
          ∧ stateC5.global_counters.write_counters c = 0)
      ∧ ([0, 1] : List ℕ).Nodup ∧ 0 < 2)
    ∧ (getRead (commitList 2 [0, 1] stateC5) 0
        = (([0, 1] : List ℕ).map (fun t => tGetRead stateC5 t 0)).sum
      ∧ getWrite (commitList 2 [0, 1] stateC5) 0
        = (([0, 1] : List ℕ).map (fun t => tGetWrite stateC5 t 0)).sum) :=
  ⟨⟨rfl, fun c _ => ⟨rfl, rfl⟩, by decide, by decide⟩,
   commit_aggregation 2 stateC5 rfl (fun c _ => ⟨rfl, rfl⟩) [0, 1] (by decide) 0 (by decide)⟩

/-- FC6: Commit never modifies the committing thread local bank; hence two
consecutive Commit calls with no intervening ResetThread add the same
thread-local values into the global bank twice, and every global counter
shows the double count on top of its prior value. -/
theorem commit_keeps_thread_bank (N threadid c : ℕ) (s : AdapterState) :
    (commit N threadid s).thread_counters = s.thread_counters
    ∧ (s.enabled = true → c < N →
        getRead (commit N threadid (commit N threadid s)) c
          = s.global_counters.read_counters c + 2 * tGetRead s threadid c
        ∧ getWrite (commit N threadid (commit N threadid s)) c
          = s.global_counters.write_counters c + 2 * tGetWrite s threadid c) := by
  refine ⟨commit_threads N threadid s, fun he hc => ?_⟩
  have he1 : (commit N threadid s).enabled = true := by rw [commit_enabled, he]
  have he2 : (commit N threadid (commit N threadid s)).enabled = true := by
    rw [commit_enabled, he1]
  constructor
  · have hread : (commit N threadid (commit N threadid s)).global_counters.read_counters c
        = s.global_counters.read_counters c
          + 2 * (s.thread_counters threadid).read_counters c := by
      rw [commit_global_read N threadid _ he1 c hc, commit_global_read N threadid s he c hc,
        commit_threads]
      ring
    rw [getRead]
    simp only [he2, if_true]
    rw [hread, tGetRead]
    simp [he]
  · have hwrite : (commit N threadid (commit N threadid s)).global_counters.write_counters c
        = s.global_counters.write_counters c
          + 2 * (s.thread_counters threadid).write_counters c := by
      rw [commit_global_write N threadid _ he1 c hc, commit_global_write N threadid s he c hc,
        commit_threads]
      ring
    rw [getWrite]
    simp only [he2, if_true]
    rw [hwrite, tGetWrite]
    simp [he]

/-- Witness for FC6: at the C5 scenario state, double-committing thread 0
leaves its bank alone and doubles its contribution on column 0. -/
theorem commit_keeps_thread_bank_witness :
    (stateC5.enabled = true ∧ 0 < 2)
    ∧ ((commit 2 0 stateC5).thread_counters = stateC5.thread_counters
      ∧ (stateC5.enabled = true → 0 < 2 →
          getRead (commit 2 0 (commit 2 0 stateC5)) 0
            = stateC5.global_counters.read_counters 0 + 2 * tGetRead stateC5 0 0
          ∧ getWrite (commit 2 0 (commit 2 0 stateC5)) 0
            = stateC5.global_counters.write_counters 0 + 2 * tGetWrite stateC5 0 0)) :=
  ⟨⟨rfl, by decide⟩, commit_keeps_thread_bank 2 0 0 stateC5⟩

/-- CountRead leaves the enablement flag alone. -/
lemma countRead_enabled (t i c : ℕ) (s : AdapterState) :
    (countRead t i c s).enabled = s.enabled := by
  unfold countRead
  split <;> rfl

/-- CountWrite leaves the enablement flag alone. -/
lemma countWrite_enabled (t i c : ℕ) (s : AdapterState) :
    (countWrite t i c s).enabled = s.enabled := by
  unfold countWrite
  split <;> rfl

/-- ResetGlobal leaves the enablement flag alone. -/
lemma resetGlobal_enabled (s : AdapterState) :
    (resetGlobal s).enabled = s.enabled := by
  unfold resetGlobal
  split <;> rfl

/-- ResetThread leaves the enablement flag alone. -/
lemma resetThread_enabled (t : ℕ) (s : AdapterState) :
    (resetThread t s).enabled = s.enabled := by
  unfold resetThread
  split <;> rfl

/-- RecomputeSplit leaves the enablement flag alone. -/
lemma recomputeSplit_enabled (N : ℕ) (s : AdapterState) :
    (recomputeSplit N s).2.enabled = s.enabled := by
  show (resetGlobal s).enabled = s.enabled
  exact resetGlobal_enabled s

/-- Every mutating call leaves the enablement flag alone. -/
lemma exec_enabled (N : ℕ) (op : AdapterOp N) (s : AdapterState) :
    (exec N op s).enabled = s.enabled := by
  cases op with
  | countRead t i c => exact countRead_enabled t i c s
  | countWrite t i c => exact countWrite_enabled t i c s
  | commit t => exact commit_enabled N t s
  | recomputeSplit => exact recomputeSplit_enabled N s
  | resetGlobal => exact resetGlobal_enabled s
  | resetThread t => exact resetThread_enabled t s

/-- With the feature disabled, every mutating call leaves both counter
banks alone (RecomputeSplit may still republish the split, which is not a
counter). -/
lemma exec_disabled (N : ℕ) (op : AdapterOp N) (s : AdapterState)
    (hd : s.enabled = false) :
    (exec N op s).thread_counters = s.thread_counters
    ∧ (exec N op s).global_counters = s.global_counters := by
  cases op with
  | countRead t i c => simp [exec, countRead, hd]
  | countWrite t i c => simp [exec, countWrite, hd]
  | commit t => simp [exec, commit, hd]
  | recomputeSplit => simp [exec, recomputeSplit, resetGlobal, hd]
  | resetGlobal => simp [exec, resetGlobal, hd]
  | resetThread t => simp [exec, resetThread, hd]

/-- With the feature disabled, a whole call sequence leaves the flag and
both counter banks alone. -/
lemma execList_disabled (N : ℕ) :
    ∀ (ops : List (AdapterOp N)) (s : AdapterState), s.enabled = false →
      (execList N ops s).enabled = false
      ∧ (execList N ops s).thread_counters = s.thread_counters
      ∧ (execList N ops s).global_counters = s.global_counters := by
  intro ops
  induction ops with
  | nil => intro s hd; exact ⟨hd, rfl, rfl⟩
  | cons op ops ih =>
      intro s hd
      have h1 : (exec N op s).enabled = false := by rw [exec_enabled, hd]
      have h2 := exec_disabled N op s hd
      have h3 := ih (exec N op s) h1
      exact ⟨h3.1, h3.2.1.trans h2.1, h3.2.2.trans h2.2⟩

/-- FC7: with the enablement flag off, every sequence of mutating calls
(CountRead, CountWrite, Commit, RecomputeSplit, and also the resets) leaves
every GetRead, GetWrite, Get, TGetRead, TGetWrite and TGet query returning
zero, and modifies no thread-local or global counter. -/
theorem disabled_is_noop (N : ℕ) (s : AdapterState) (hd : s.enabled = false)
    (ops : List (AdapterOp N)) (c t : ℕ) :
    getRead (execList N ops s) c = 0
    ∧ getWrite (execList N ops s) c = 0
    ∧ get (execList N ops s) c = (0, 0)
    ∧ tGetRead (execList N ops s) t c = 0
    ∧ tGetWrite (execList N ops s) t c = 0
    ∧ tGet (execList N ops s) t c = (0, 0)
    ∧ (execList N ops s).thread_counters = s.thread_counters
    ∧ (execList N ops s).global_counters = s.global_counters := by
  obtain ⟨h1, h2, h3⟩ := execList_disabled N ops s hd
  refine ⟨?_, ?_, ?_, ?_, ?_, ?_, h2, h3⟩ <;>
    simp [getRead, getWrite, get, tGetRead, tGetWrite, tGet, h1]

/-- Witness for FC7: a disabled two-column adapter run through a commit, a
count and a recompute observes only zeroes and unchanged banks. -/
theorem disabled_is_noop_witness :
    (initState false).enabled = false
    ∧ (getRead (execList 2 [.commit 0, .countRead 0 ⟨0, by decide⟩ 5, .recomputeSplit]
          (initState false)) 0 = 0
      ∧ getWrite (execList 2 [.commit 0, .countRead 0 ⟨0, by decide⟩ 5, .recomputeSplit]
          (initState false)) 0 = 0
      ∧ get (execList 2 [.commit 0, .countRead 0 ⟨0, by decide⟩ 5, .recomputeSplit]
          (initState false)) 0 = (0, 0)
      ∧ tGetRead (execList 2 [.commit 0, .countRead 0 ⟨0, by decide⟩ 5, .recomputeSplit]
          (initState false)) 0 0 = 0
      ∧ tGetWrite (execList 2 [.commit 0, .countRead 0 ⟨0, by decide⟩ 5, .recomputeSplit]
          (initState false)) 0 0 = 0
      ∧ tGet (execList 2 [.commit 0, .countRead 0 ⟨0, by decide⟩ 5, .recomputeSplit]
          (initState false)) 0 0 = (0, 0)
      ∧ (execList 2 [.commit 0, .countRead 0 ⟨0, by decide⟩ 5, .recomputeSplit]
          (initState false)).thread_counters = (initState false).thread_counters
      ∧ (execList 2 [.commit 0, .countRead 0 ⟨0, by decide⟩ 5, .recomputeSplit]
          (initState false)).global_counters = (initState false).global_counters) :=
  ⟨rfl, disabled_is_noop 2 (initState false) rfl
    [.commit 0, .countRead 0 ⟨0, by decide⟩ 5, .recomputeSplit] 0 0⟩

/-- FC8: immediately after initialization the stored Split State is the
sentinel 0 and CurrentSplit returns COLCOUNT; in general CurrentSplit
returns the stored value with the sentinel 0 reinterpreted as COLCOUNT. -/
theorem currentSplit_sentinel (N : ℕ) (b : Bool) (s : AdapterState) :
    (initState b).current_split = 0
    ∧ currentSplit N (initState b) = N
    ∧ currentSplit N s = (if s.current_split = 0 then N else s.current_split) :=
  ⟨rfl, by simp [currentSplit, initState], rfl⟩

/-- Range helper: the skew pass either keeps its initial best index or ends
on a scanned candidate, which lies between 1 and the scan start. -/
lemma pass1loop_fst_range (f : ℕ → ℚ × ℚ) :
    ∀ (n : ℕ) (acc : ℕ × (ℚ × ℚ)),
      (pass1loop f n acc).1 = acc.1
      ∨ (1 ≤ (pass1loop f n acc).1 ∧ (pass1loop f n acc).1 ≤ n) := by
  intro n
  induction n with
  | zero => intro acc; exact Or.inl rfl
  | succ n ih =>
      intro acc
      rw [pass1loop]
      split
      · rcases ih (n + 1, f (n + 1)) with h | h
        · right
          simp only at h
          omega
        · right
          omega
      · rcases ih acc with h | h
        · exact Or.inl h
        · right
          omega

/-- Range helper: the balance pass either keeps its initial best index or
ends on a scanned candidate, which lies between 1 and the scan start. -/
lemma pass2loop_range (g : ℕ → ℚ) :
    ∀ (n best : ℕ),
      pass2loop g n best = best
      ∨ (1 ≤ pass2loop g n best ∧ pass2loop g n best ≤ n) := by
  intro n
  induction n with
  | zero => intro best; exact Or.inl rfl
  | succ n ih =>
      intro best
      rw [pass2loop]
      split
      · rcases ih (n + 1) with h | h
        · right
          omega
        · right
          omega
      · rcases ih best with h | h
        · exact Or.inl h
        · right
          omega

/-- Range helper: for any snapshot and COLCOUNT at least 1, the computed
split lies between 1 and COLCOUNT. -/
lemma computeSplitIndexFrom_range (N : ℕ) (hN : 1 ≤ N) (rf wf : ℕ → ℕ) :
    1 ≤ computeSplitIndexFrom N rf wf ∧ computeSplitIndexFrom N rf wf ≤ N := by
  unfold computeSplitIndexFrom
  simp only
  rcases pass1loop_fst_range (splitData N rf wf) (N - 1) (N, splitData N rf wf N) with h | h
  · simp only at h
    rw [h]
    rw [if_pos (rfl : (N : ℕ) = N)]
    rcases pass2loop_range (wFrac N wf) (N - 1) N with h2 | h2
    · rw [h2]
      omega
    · omega
  · have hne : (pass1loop (splitData N rf wf) (N - 1) (N, splitData N rf wf N)).1 ≠ N := by
      omega
    rw [if_neg hne]
    omega

/-- Reachability helper: from any state whose stored split is at most
COLCOUNT, every call sequence keeps the stored split at most COLCOUNT. -/
lemma execList_split_le (N : ℕ) (hN : 1 ≤ N) :
    ∀ (ops : List (AdapterOp N)) (s : AdapterState), s.current_split ≤ N →
      (execList N ops s).current_split ≤ N := by
  intro ops
  induction ops with
  | nil => intro s hs; exact hs
  | cons op ops ih =>
      intro s hs
      refine ih (exec N op s) ?_
      cases op with
      | countRead t i c =>
          show (countRead t (↑i) c s).current_split ≤ N
          unfold countRead
          split <;> exact hs
      | countWrite t i c =>
          show (countWrite t (↑i) c s).current_split ≤ N
          unfold countWrite
          split <;> exact hs
      | commit t =>
          show (commit N t s).current_split ≤ N
          rw [commit_split]
          exact hs
      | recomputeSplit =>
          show (recomputeSplit N s).2.current_split ≤ N
          rw [recomputeSplit_snd_split]
          exact (computeSplitIndexFrom_range N hN _ _).2
      | resetGlobal =>
          show (resetGlobal s).current_split ≤ N
          unfold resetGlobal
          split <;> exact hs
      | resetThread t =>
          show (resetThread t s).current_split ≤ N
          unfold resetThread
          split <;> exact hs

/-- FC9: for every snapshot of the global bank (the all-zero bank included)
the value of ComputeSplitIndex lies in [1, COLCOUNT] — never 0, never more
than COLCOUNT — and consequently, on every state reachable from
initialization by any call sequence, CurrentSplit also lies in
[1, COLCOUNT]. -/
theorem split_always_in_range (N : ℕ) (hN : 1 ≤ N) (rf wf : ℕ → ℕ) (b : Bool)
    (ops : List (AdapterOp N)) :
    (1 ≤ computeSplitIndexFrom N rf wf ∧ computeSplitIndexFrom N rf wf ≤ N)
    ∧ (1 ≤ currentSplit N (execList N ops (initState b))
       ∧ currentSplit N (execList N ops (initState b)) ≤ N) := by
  refine ⟨computeSplitIndexFrom_range N hN rf wf, ?_⟩
  have hle : (execList N ops (initState b)).current_split ≤ N :=
    execList_split_le N hN ops (initState b) (by simp [initState])
  unfold currentSplit
  split
  · omega
  · omega

/-- Witness for FC9: four columns, the all-zero snapshot, and a run of one
commit and one recompute from the enabled initial state. -/
theorem split_always_in_range_witness :
    1 ≤ 4
    ∧ ((1 ≤ computeSplitIndexFrom 4 (fun _ => 0) (fun _ => 1)
        ∧ computeSplitIndexFrom 4 (fun _ => 0) (fun _ => 1) ≤ 4)
      ∧ (1 ≤ currentSplit 4 (execList 4 [.commit 0, .recomputeSplit] (initState true))
        ∧ currentSplit 4 (execList 4 [.commit 0, .recomputeSplit] (initState true)) ≤ 4)) :=
  ⟨by decide,
   split_always_in_range 4 (by decide) (fun _ => 0) (fun _ => 1) true
     [.commit 0, .recomputeSplit]⟩

/-- FC10: the changed flag of RecomputeSplit is computed against the raw
stored Split State, not the reinterpreted CurrentSplit value: on a state
whose stored split is the initialization sentinel 0, if ComputeSplitIndex
returns COLCOUNT then the call returns true — the stored value moves from 0
to COLCOUNT — even though CurrentSplit returns COLCOUNT both before and
after the call. -/
theorem changed_flag_uses_raw_store (N : ℕ) (s : AdapterState)
    (h0 : s.current_split = 0) (hN : 1 ≤ N) (hcsi : computeSplitIndex N s = N) :
    (recomputeSplit N s).1 = true
    ∧ currentSplit N s = N
    ∧ currentSplit N (recomputeSplit N s).2 = N
    ∧ (recomputeSplit N s).2.current_split = N := by
  have hpub : (recomputeSplit N s).2.current_split = N := by
    rw [recomputeSplit_snd_split, hcsi]
  refine ⟨?_, ?_, ?_, hpub⟩
  · rw [recomputeSplit_fst, hcsi, h0, decide_eq_true_eq]
    omega
  · unfold currentSplit
    rw [h0]
    simp
  · unfold currentSplit
    rw [hpub]
    have : N ≠ 0 := by omega
    simp [this]

/-- Witness for FC10: the enabled initial four-column state has stored
split 0 and an all-zero bank, so ComputeSplitIndex returns 4 and the first
RecomputeSplit reports a change while CurrentSplit stays 4. -/
theorem changed_flag_uses_raw_store_witness :
    ((initState true).current_split = 0 ∧ 1 ≤ 4
      ∧ computeSplitIndex 4 (initState true) = 4)
    ∧ ((recomputeSplit 4 (initState true)).1 = true
      ∧ currentSplit 4 (initState true) = 4
      ∧ currentSplit 4 (recomputeSplit 4 (initState true)).2 = 4
      ∧ (recomputeSplit 4 (initState true)).2.current_split = 4) :=
  ⟨⟨rfl, by decide, computeSplitIndex_zero_global 4 (initState true) rfl⟩,
   changed_flag_uses_raw_store 4 (initState true) rfl (by decide)
     (computeSplitIndex_zero_global 4 (initState true) rfl)⟩

end StoAdapter
